import Mathlib

/-
Verification of the diff-review core of `.github/scripts/codex-review.py`
(class `CodexReviewer`): the diff parser (`parse_diff`), the language
classifier (`detect_language`), the rule catalog (`PATTERNS`), the line
matcher (`analyze_file`) and the aggregator (`review`).

The embedding mirrors the Python line by line:
  - Python `str.split(sep)` (explicit separator, empties kept) is `pySplit`;
  - Python indexing `xs[i]` that can raise `IndexError` is modelled with
    `List.getElem?` plus an explicit `PyErr.indexError`;
  - Python `int(s)` is `pyInt?` (sign, digits, underscore groups, surrounding
    whitespace), `None` standing for `ValueError`;
  - Python dicts (insertion-ordered, string keys) are association lists with
    `dictGet` / `dictSet`;
  - Python truthiness of `current_file` (a `None`-able string) is `pyTruthy`;
  - `re.search` is `reSearch`, a Brzozowski-derivative matcher over the
    regular-expression constructs the catalog actually uses (literals,
    character classes, `.`, `\s`, `\w`, `[^}]`, `*`, `+`); every catalog
    pattern is hand-compiled next to a comment holding the source regex.
All machine work happens on `List Char`, so every definition reduces in the
kernel and concrete runs can be settled by `rfl` / `decide`.
-/

set_option autoImplicit false

namespace CodexReview

/-! ## Python string primitives -/

/-- Python `s.split(sep)` for a one-character separator: split on every
occurrence, keeping empty fragments (`''.split(c) == ['']`). -/
def pySplitCh (sep : Char) : List Char → List (List Char)
  | [] => [[]]
  | c :: cs =>
    if c == sep then [] :: pySplitCh sep cs
    else
      match pySplitCh sep cs with
      | [] => [[c]]
      | g :: gs => (c :: g) :: gs

/-- Python `s.split("@@")`: split on each non-overlapping, leftmost
occurrence of the two-character separator `@@`, keeping empty fragments. -/
def pySplitAtAt : List Char → List (List Char)
  | [] => [[]]
  | [c] => [[c]]
  | c :: d :: cs =>
    if c == '@' && d == '@' then [] :: pySplitAtAt cs
    else
      match pySplitAtAt (d :: cs) with
      | [] => [[c]]
      | g :: gs => (c :: g) :: gs

/-- `str.split` on a one-character separator, at `String` level. -/
def pySplit (sep : Char) (s : String) : List String :=
  (pySplitCh sep s.toList).map String.mk

/-- `str.split("@@")` at `String` level. -/
def pySplitAA (s : String) : List String :=
  (pySplitAtAt s.toList).map String.mk

/-- Python `s.startswith(pre)`. -/
def pyStartsWith (s pre : String) : Bool :=
  pre.toList.isPrefixOf s.toList

/-- Python `s.strip()`: drop whitespace from both ends. -/
def pyStrip (cs : List Char) : List Char :=
  ((cs.dropWhile Char.isWhitespace).reverse.dropWhile Char.isWhitespace).reverse

/-- `str.strip()` at `String` level. -/
def pyStripS (s : String) : String :=
  String.mk (pyStrip s.toList)

/-- Python `s[1:]`: drop the first character. -/
def pyDrop1 (s : String) : String :=
  String.mk s.toList.tail

/-- Python `s.lower()` (ASCII letters, which is all the classifier needs). -/
def pyLower (s : String) : String :=
  String.mk (s.toList.map Char.toLower)

/-- Accumulate the value of a decimal digit run. -/
def digitsVal : Nat → List Char → Nat
  | n, [] => n
  | n, c :: cs => digitsVal (n * 10 + (c.toNat - 48)) cs

/-- A non-empty run of decimal digits (one group between underscores). -/
def isDigitGroup (g : List Char) : Bool :=
  !g.isEmpty && g.all Char.isDigit

/-- Python `int(s)`: optional surrounding whitespace, optional single sign,
then decimal digits, with single underscores allowed between digit groups.
`none` models the `ValueError` that `int` raises otherwise. -/
def pyIntOfChars (cs : List Char) : Option Int :=
  let t := pyStrip cs
  let p : Bool × List Char :=
    match t with
    | '-' :: rest => (true, rest)
    | '+' :: rest => (false, rest)
    | _ => (false, t)
  let groups := pySplitCh '_' p.2
  if groups.all isDigitGroup then
    let v : Nat := groups.foldl (fun n g => digitsVal n g) 0
    some (if p.1 then -(v : Int) else (v : Int))
  else none

/-- Python `int(s)` at `String` level. -/
def pyInt? (s : String) : Option Int :=
  pyIntOfChars s.toList

/-- Truthiness of the `current_file` variable: it is falsy when it is
`None` and when it is the empty string. -/
def pyTruthy : Option String → Bool
  | none => false
  | some s => !s.toList.isEmpty

/-! ## Python dicts as insertion-ordered association lists -/

/-- `d[k]` lookup (`None` models a missing key). -/
def dictGet {α : Type} : List (String × α) → String → Option α
  | [], _ => none
  | (k2, v) :: rest, k => if k2 = k then some v else dictGet rest k

/-- `d[k] = v`: replace in place when the key exists (keeping its insertion
position), append a fresh entry otherwise — Python 3.7+ dict semantics. -/
def dictSet {α : Type} : List (String × α) → String → α → List (String × α)
  | [], k, v => [(k, v)]
  | (k2, v2) :: rest, k, v =>
    if k2 = k then (k2, v) :: rest else (k2, v2) :: dictSet rest k v

/-- `flatMapL l f`: concatenation of `f` over `l`, in order (the shape of
every nested `for`/`append` loop in the script). -/
def flatMapL {α β : Type} : List α → (α → List β) → List β
  | [], _ => []
  | a :: as, f => f a ++ flatMapL as f

/-! ## The regular-expression engine behind `re.search` -/

/-- Regular expressions over the constructs the catalog uses.  A character
class is an arbitrary decidable predicate, which covers literals, `.`,
`\s`, `\w` and `[^}]`. -/
inductive RE : Type where
  | fail : RE
  | eps : RE
  | cls (p : Char → Bool) : RE
  | cat (a b : RE) : RE
  | alt (a b : RE) : RE
  | star (a : RE) : RE

/-- Does the expression accept the empty string? -/
def RE.nullable : RE → Bool
  | .fail => false
  | .eps => true
  | .cls _ => false
  | .cat a b => a.nullable && b.nullable
  | .alt a b => a.nullable || b.nullable
  | .star _ => true

/-- Smart sequencing constructor, keeping derivatives small. -/
def RE.mkCat : RE → RE → RE
  | .fail, _ => .fail
  | .eps, b => b
  | a, b => .cat a b

/-- Smart alternation constructor, keeping derivatives small. -/
def RE.mkAlt : RE → RE → RE
  | .fail, b => b
  | a, .fail => a
  | a, b => .alt a b

/-- Brzozowski derivative: the residual expression after consuming `c`. -/
def RE.deriv : RE → Char → RE
  | .fail, _ => .fail
  | .eps, _ => .fail
  | .cls p, c => if p c then .eps else .fail
  | .cat a b, c =>
    if a.nullable then RE.mkAlt (RE.mkCat (a.deriv c) b) (b.deriv c)
    else RE.mkCat (a.deriv c) b
  | .alt a b, c => RE.mkAlt (a.deriv c) (b.deriv c)
  | .star a, c => RE.mkCat (a.deriv c) (.star a)

/-- Does `r` match some prefix of the character list? -/
def RE.matchesPrefix : RE → List Char → Bool
  | r, [] => r.nullable
  | r, c :: cs => r.nullable || (r.deriv c).matchesPrefix cs

/-- Does `r` match a substring starting at some position? -/
def RE.searchList : RE → List Char → Bool
  | r, [] => r.nullable
  | r, c :: cs => r.matchesPrefix (c :: cs) || r.searchList cs

/-- Python `re.search(pattern, s)` viewed as a Boolean (the script only
tests the result for truthiness). -/
def reSearch (r : RE) (s : String) : Bool :=
  r.searchList s.toList

/-- A literal string, compiled to a sequence of single-character classes. -/
def litRE (s : String) : RE :=
  s.toList.foldr (fun c r => RE.cat (RE.cls (fun d => d == c)) r) RE.eps

/-- A single-character literal class. -/
def chRE (c : Char) : RE :=
  RE.cls (fun d => d == c)

/-- `\s`: a whitespace character. -/
def wsRE : RE := RE.cls Char.isWhitespace

/-- `\w`: a word character. -/
def wordRE : RE := RE.cls (fun c => c.isAlphanum || c == '_')

/-- `.`: any character but a newline. -/
def anyRE : RE := RE.cls (fun c => !(c == '\n'))

/-- `r*`. -/
def starRE (r : RE) : RE := RE.star r

/-- `r+`. -/
def plusRE (r : RE) : RE := RE.cat r (RE.star r)

/-- Right-nested sequencing of a list of regex fragments. -/
def seqRE (rs : List RE) : RE :=
  rs.foldr RE.cat RE.eps

/-! ## Data model -/

/-- One diff hunk, as built by `parse_diff`: the owning file's base name,
the parsed `line_start` (an `Int`: the parse can produce negative values)
and the raw content lines appended under the hunk header. -/
structure Hunk where
  file : String
  line_start : Int
  content : List String
  deriving DecidableEq

/-- The mutable state of the `parse_diff` loop: the insertion-ordered
`files` dict and the `current_file` variable. -/
structure PState where
  files : List (String × List Hunk)
  current : Option String
  deriving DecidableEq

/-- The Python exceptions the core can raise. -/
inductive PyErr : Type where
  | indexError : PyErr
  | valueError : PyErr
  | keyError : PyErr
  deriving DecidableEq

/-- One reported issue, as appended to `self.issues`. -/
structure Finding where
  severity : String
  category : String
  file : String
  line : Int
  message : String
  code : String
  deriving DecidableEq

/-- The dict returned by `review`. -/
structure ReviewResult where
  summary : String
  issues : List Finding
  files_reviewed : Nat
  deriving DecidableEq

/-! ## The rule catalog (`CodexReviewer.PATTERNS`)

Each rule is the hand-compiled form of the source regex, kept beside the
original pattern text in a comment. -/

/-- The `rust` catalog entry. -/
def rustPatterns : List (String × List (RE × String)) :=
  [("best_practices",
     [ -- unwrap\(\)
      (litRE "unwrap()",
       "Consider using proper error handling instead of unwrap()"),
      -- println!\s*\(
      (seqRE [litRE "println!", starRE wsRE, chRE '('],
       "Prefer logging over println! for production code"),
      -- Vec::new\(\)\.push\(
      (litRE "Vec::new().push(",
       "Use Vec::with_capacity() when size is known"),
      -- \.clone\(\)
      (litRE ".clone()",
       "Avoid unnecessary clones, consider references")]),
   ("bugs",
     [ -- panic!
      (litRE "panic!",
       "Avoid panic! in production code, use Result<T, E>"),
      -- expect\(
      (litRE "expect(",
       "Replace expect() with proper error handling"),
      -- unsafe\s
      (seqRE [litRE "unsafe", wsRE],
       "Unsafe block detected - ensure it\x27s necessary and safe")]),
   ("security",
     [ -- println!\s*\(.*password
      (seqRE [litRE "println!", starRE wsRE, chRE '(', starRE anyRE,
              litRE "password"],
       "Don\x27t log passwords or sensitive data"),
      -- dbg!\s*\(.*password
      (seqRE [litRE "dbg!", starRE wsRE, chRE '(', starRE anyRE,
              litRE "password"],
       "Don\x27t include passwords in debug output"),
      -- env!\s*\(.+.\+.\+
      (seqRE [litRE "env!", starRE wsRE, chRE '(', plusRE anyRE, anyRE,
              chRE '+', anyRE, chRE '+'],
       "Be careful with string concatenation in commands")])]

/-- The `go` catalog entry. -/
def goPatterns : List (String × List (RE × String)) :=
  [("best_practices",
     [ -- fmt\.Print\w*\(
      (seqRE [litRE "fmt.Print", starRE wordRE, chRE '('],
       "Use logging instead of fmt.Print"),
      -- \[\]byte\(string\)
      (litRE "[]byte(string)",
       "Use []byte(string) - more idiomatic"),
      -- if err != nil \{[^}]+\}
      (seqRE [litRE "if err != nil ", chRE '\x7b',
              plusRE (RE.cls (fun c => !(c == '\x7d'))), chRE '\x7d'],
       "Consider wrapping with if err == nil")]),
   ("bugs",
     [ -- defer\s+\w+\(\)
      (seqRE [litRE "defer", plusRE wsRE, plusRE wordRE, litRE "()"],
       "Check for errors before defer"),
      -- range\s+\w+\(\)\s+\{
      (seqRE [litRE "range", plusRE wsRE, plusRE wordRE, litRE "()",
              plusRE wsRE, chRE '\x7b'],
       "Ensure range limit is checked")]),
   ("security",
     [ -- fmt\.Sprint.*password
      (seqRE [litRE "fmt.Sprint", starRE anyRE, litRE "password"],
       "Don\x27t include passwords in formatted strings"),
      -- os\.Exec.*\+.*password
      (seqRE [litRE "os.Exec", starRE anyRE, chRE '+', starRE anyRE,
              litRE "password"],
       "Don\x27t concatenate passwords in commands")])]

/-- `CodexReviewer.PATTERNS`: language → category → ordered rules. -/
def PATTERNS : List (String × List (String × List (RE × String))) :=
  [("rust", rustPatterns), ("go", goPatterns)]

/-! ## `parse_diff` -/

/-- One iteration of the `parse_diff` loop: the four-way branch on the
current line, with the Python exceptions it can raise made explicit. -/
def step (st : PState) (line : String) : Except PyErr PState :=
  if pyStartsWith line "diff --git" then
    -- current_file = line.split(' ')[2].split('/')[-1]; files[current_file] = []
    match (pySplit ' ' line)[2]? with
    | none => .error .indexError
    | some tok =>
      let name := (pySplit '/' tok).getLastD ""
      .ok ⟨dictSet st.files name [], some name⟩
  else if pyTruthy st.current && pyStartsWith line "@@" then
    -- line_start = int(line.split('@@')[1].split(',')[0][1:])
    match (pySplitAA line)[1]? with
    | none => .error .indexError
    | some seg =>
      match pyInt? (pyDrop1 ((pySplit ',' seg).head?.getD "")) with
      | none => .error .valueError
      | some n =>
        match st.current with
        | none => .ok st
        | some c =>
          match dictGet st.files c with
          | none => .error .keyError
          | some hs => .ok ⟨dictSet st.files c (hs ++ [⟨c, n, []⟩]), st.current⟩
  else if pyTruthy st.current then
    -- elif current_file and files[current_file]: append to the last hunk
    match st.current with
    | none => .ok st
    | some c =>
      match dictGet st.files c with
      | none => .error .keyError
      | some hs =>
        match hs.getLast? with
        | none => .ok st
        | some h =>
          .ok ⟨dictSet st.files c
                 (hs.dropLast ++ [⟨h.file, h.line_start, h.content ++ [line]⟩]),
               st.current⟩
  else .ok st

/-- The `parse_diff` loop over a list of lines. -/
def parseLines : PState → List String → Except PyErr PState
  | st, [] => .ok st
  | st, l :: ls =>
    match step st l with
    | .error e => .error e
    | .ok st2 => parseLines st2 ls

/-- `CodexReviewer.parse_diff` on already-loaded diff text: split on
newlines and run the loop from the empty state. -/
def parse_diff (content : String) : Except PyErr (List (String × List Hunk)) :=
  match parseLines ⟨[], none⟩ (pySplit '\n' content) with
  | .error e => .error e
  | .ok st => .ok st.files

/-! ## `detect_language` -/

/-- The extension table inside `detect_language`. -/
def langMap : List (String × String) :=
  [(".rs", "rust"), (".go", "go"), (".py", "python"), (".js", "javascript"),
   (".ts", "typescript"), (".java", "java")]

/-- `pathlib.PurePath(s).name`: the final path component (empty components
and bare `.` components are dropped during parsing). -/
def pyPathName (s : String) : String :=
  ((pySplit '/' s).filter (fun c => !(c == "" || c == "."))).getLastD ""

/-- Split `name` around its last dot: `some (before, after)` when a dot
exists, with `after` dot-free. -/
def lastDotSplit (name : List Char) : Option (List Char × List Char) :=
  let r := name.reverse
  let after := r.takeWhile (fun c => !(c == '.'))
  if after.length == r.length then none
  else some ((r.drop (after.length + 1)).reverse, after.reverse)

/-- `pathlib.PurePath(s).suffix`: the last-dot segment of the final
component, but empty when the last dot is the name's first character
(hidden file) or its last character. -/
def pathSuffix (s : String) : String :=
  match lastDotSplit (pyPathName s).toList with
  | none => ""
  | some (pre, post) =>
    if !pre.isEmpty && !post.isEmpty then String.mk ('.' :: post) else ""

/-- `CodexReviewer.detect_language`. -/
def detect_language (filename : String) : String :=
  (dictGet langMap (pyLower (pathSuffix filename))).getD "generic"

/-! ## `analyze_file` -/

/-- Does the line begin with `+`, `-` or `@@` (the marker test that both
gates matching and advances the line counter)? -/
def isMarkerLine (line : String) : Bool :=
  pyStartsWith line "+" || pyStartsWith line "-" || pyStartsWith line "@@"

/-- The findings for one added line: every category in order, every rule in
order, one finding per successful `re.search` on the line with its `+`
stripped. -/
def lineFindings (filename : String) (pats : List (String × List (RE × String)))
    (line_num : Int) (line : String) : List Finding :=
  flatMapL pats (fun cat =>
    flatMapL cat.2 (fun rule =>
      if reSearch rule.1 (pyDrop1 line) then
        [⟨"warning", cat.1, filename, line_num, rule.2, pyStripS (pyDrop1 line)⟩]
      else []))

/-- The inner loop of `analyze_file` over one hunk's content: marker lines
are processed (added lines are matched) and advance the counter; other
lines are skipped without advancing it. -/
def analyzeHunk (filename : String) (pats : List (String × List (RE × String))) :
    Int → List String → List Finding
  | _, [] => []
  | n, l :: ls =>
    if isMarkerLine l then
      (if pyStartsWith l "+" then lineFindings filename pats n l else []) ++
        analyzeHunk filename pats (n + 1) ls
    else analyzeHunk filename pats n ls

/-- `CodexReviewer.analyze_file`: classify the file, look its language up in
the catalog (default: no rules) and scan every hunk. -/
def analyze_file (filename : String) (hunks : List Hunk) : List Finding :=
  flatMapL hunks (fun h =>
    analyzeHunk filename ((dictGet PATTERNS (detect_language filename)).getD [])
      h.line_start h.content)

/-! ## `review` -/

/-- `CodexReviewer.review` on already-loaded diff text (`self.issues`
starts empty, per `__init__`): parse, analyze every file in insertion
order, and aggregate.  An exception from parsing propagates. -/
def review (content : String) : Except PyErr ReviewResult :=
  match parse_diff content with
  | .error e => .error e
  | .ok files =>
    let issues := flatMapL files (fun f => analyze_file f.1 f.2)
    .ok ⟨"Code review completed with " ++ toString issues.length ++
           " issues found",
         issues, files.length⟩

/-! ## Helper lemmas -/

/-- Number of content lines that advance the line counter (those starting
with `+`, `-` or `@@`). -/
def markerCount : List String → Nat
  | [] => 0
  | l :: ls => (if isMarkerLine l then 1 else 0) + markerCount ls

@[simp] theorem markerCount_nil : markerCount [] = 0 := rfl

@[simp] theorem markerCount_cons (l : String) (ls : List String) :
    markerCount (l :: ls) = (if isMarkerLine l then 1 else 0) + markerCount ls := rfl

@[simp] theorem flatMapL_nil {α β : Type} (f : α → List β) :
    flatMapL [] f = [] := rfl

@[simp] theorem flatMapL_cons {α β : Type} (a : α) (as : List α) (f : α → List β) :
    flatMapL (a :: as) f = f a ++ flatMapL as f := rfl

theorem flatMapL_map {α β γ : Type} (g : α → β) (l : List α) (f : β → List γ) :
    flatMapL (l.map g) f = flatMapL l (fun a => f (g a)) := by
  induction l with
  | nil => rfl
  | cons a as ih => simp [ih]

theorem flatMapL_congr {α β : Type} (l : List α) (f g : α → List β)
    (h : ∀ a, f a = g a) : flatMapL l f = flatMapL l g := by
  induction l with
  | nil => rfl
  | cons a as ih => simp [h, ih]

/-- Is the first list a contiguous sublist of the second? -/
def containsSub {α : Type} [BEq α] : List α → List α → Bool
  | needle, [] => needle.isEmpty
  | needle, c :: cs => needle.isPrefixOf (c :: cs) || containsSub needle cs

theorem dictGet_dictSet {α : Type} (d : List (String × α)) (k : String) (v : α)
    (c : String) :
    dictGet (dictSet d k v) c = if k = c then some v else dictGet d c := by
  induction d with
  | nil =>
    by_cases hc : k = c <;> simp [dictSet, dictGet, hc]
  | cons p rest ih =>
    obtain ⟨k2, v2⟩ := p
    by_cases h2 : k2 = k
    · subst h2
      by_cases hc : k2 = c <;> simp [dictSet, dictGet, hc]
    · by_cases hc : k2 = c
      · subst hc
        have hk : ¬(k = k2) := fun he => h2 he.symm
        simp [dictSet, dictGet, h2, hk]
      · simp [dictSet, dictGet, h2, hc, ih]

theorem dictSet_keys {α : Type} (d : List (String × α)) (k : String) (v : α)
    (h : (dictGet d k).isSome = true) :
    (dictSet d k v).map Prod.fst = d.map Prod.fst := by
  induction d with
  | nil => simp [dictGet] at h
  | cons p rest ih =>
    obtain ⟨k2, v2⟩ := p
    by_cases h2 : k2 = k
    · simp [dictSet, h2]
    · have h3 : (dictGet rest k).isSome = true := by
        simpa [dictGet, h2] using h
      simp [dictSet, h2, ih h3]

theorem analyzeHunk_no_plus (filename : String)
    (pats : List (String × List (RE × String))) (n : Int) (ls : List String)
    (h : ∀ l ∈ ls, pyStartsWith l "+" = false) :
    analyzeHunk filename pats n ls = [] := by
  induction ls generalizing n with
  | nil => rfl
  | cons l ls ih =>
    have hl : pyStartsWith l "+" = false := h l (by simp)
    have hr : ∀ x ∈ ls, pyStartsWith x "+" = false :=
      fun x hx => h x (by simp [hx])
    cases hml : isMarkerLine l <;> simp [analyzeHunk, hml, hl, ih _ hr]

/-! ## Claim theorems -/

/-- C1: the claim says `line_start` is the 1-based start of the hunk
header's NEW-file range (10 for `@@ -5,3 +10,4 @@`).  The code computes
`int(line.split('@@')[1].split(',')[0][1:])`: the first `,`-field of the
range text is ` -5`, slicing `[1:]` removes the leading space (not the
minus sign), so the stored value is `-5` — the negated OLD-range start,
not 10.  The parse at the failing input exhibits the divergence. -/
theorem C1_line_start_negated :
    parse_diff "diff --git a/x.rs b/x.rs\n@@ -5,3 +10,4 @@"
        = .ok [("x.rs", [⟨"x.rs", -5, []⟩])] ∧ (-5 : Int) ≠ 10 :=
  ⟨rfl, by decide⟩

/-- C3 counterexample: the claim says the counter advances once per content
line regardless of marker, so with `line_start = 10` the third content line
would be reported at line 12.  In the code `line_num += 1` sits inside
`if line.startswith(('+', '-', '@@'))`, so the context line `" bar"` does
not advance the counter and the second added line is reported at line 11,
not 12.  (With the claim's own literal lines `+foo`/`+baz` no rule matches,
so the findings the claim speaks of do not even exist.) -/
theorem C3_context_line_not_counted :
    (analyze_file "a.rs" [⟨"a.rs", 10, ["+x.unwrap()", " bar", "+y.unwrap()"]⟩]).map
        (fun f => f.line) = [10, 11] ∧
    ([10, 11] : List Int) ≠ [10, 12] ∧
    analyze_file "a.rs" [⟨"a.rs", 10, ["+foo", " bar", "+baz"]⟩] = [] :=
  ⟨rfl, by decide, rfl⟩

/-- C3 (amended): within a hunk the counter starts at `line_start` and
advances by 1 once per content line that begins with `+`, `-` or `@@`;
content lines without these markers do not advance it.  Stated as a closed
form: the findings of a hunk scan are the concatenation, over the content
positions, of the added-line matches, each reported at `line_start` plus
the number of marker lines strictly before that position. -/
theorem C3_amended (filename : String) (pats : List (String × List (RE × String)))
    (n : Int) (ls : List String) :
    analyzeHunk filename pats n ls
      = flatMapL (List.range ls.length) (fun i =>
          if pyStartsWith (ls.getD i "") "+" then
            lineFindings filename pats (n + (markerCount (ls.take i) : Int))
              (ls.getD i "")
          else []) := by
  induction ls generalizing n with
  | nil => rfl
  | cons l ls ih =>
    rw [List.length_cons, List.range_succ_eq_map, flatMapL_cons, flatMapL_map]
    cases hml : isMarkerLine l with
    | true =>
      have hadv : ∀ i : Nat,
          (if pyStartsWith ((l :: ls).getD (Nat.succ i) "") "+" then
             lineFindings filename pats
               (n + (markerCount ((l :: ls).take (Nat.succ i)) : Int))
               ((l :: ls).getD (Nat.succ i) "")
           else [])
          = (if pyStartsWith (ls.getD i "") "+" then
               lineFindings filename pats
                 ((n + 1) + (markerCount (ls.take i) : Int)) (ls.getD i "")
             else []) := by
        intro i
        simp [List.getD_cons_succ, List.take_succ_cons, hml, add_assoc]
      rw [flatMapL_congr _ _ _ hadv, ← ih]
      simp [analyzeHunk, hml]
    | false =>
      have hplus : pyStartsWith l "+" = false := by
        have := hml
        simp only [isMarkerLine, Bool.or_eq_false_iff] at this
        exact this.1.1
      have hadv : ∀ i : Nat,
          (if pyStartsWith ((l :: ls).getD (Nat.succ i) "") "+" then
             lineFindings filename pats
               (n + (markerCount ((l :: ls).take (Nat.succ i)) : Int))
               ((l :: ls).getD (Nat.succ i) "")
           else [])
          = (if pyStartsWith (ls.getD i "") "+" then
               lineFindings filename pats (n + (markerCount (ls.take i) : Int))
                 (ls.getD i "")
             else []) := by
        intro i
        simp [List.getD_cons_succ, List.take_succ_cons, hml]
      rw [flatMapL_congr _ _ _ hadv, ← ih]
      simp [analyzeHunk, hml, hplus]

/-- C4: for a Rust file, the added line `let x = v.clone();` yields exactly
one finding, in `best_practices`, whose message contains "unnecessary
clones"; the added line `panic!("fail")` yields exactly one finding, in
`bugs`. -/
theorem C4_pattern_coverage :
    analyze_file "m.rs" [⟨"m.rs", 1, ["+let x = v.clone();"]⟩]
        = [⟨"warning", "best_practices", "m.rs", 1,
            "Avoid unnecessary clones, consider references",
            "let x = v.clone();"⟩] ∧
    containsSub "unnecessary clones".toList
        "Avoid unnecessary clones, consider references".toList = true ∧
    analyze_file "m.rs" [⟨"m.rs", 1, ["+panic!(\"fail\")"]⟩]
        = [⟨"warning", "bugs", "m.rs", 1,
            "Avoid panic! in production code, use Result<T, E>",
            "panic!(\"fail\")"⟩] :=
  ⟨rfl, by decide, rfl⟩

/-- C5 counterexample: the claim says the two findings for an added Rust
line containing both `.unwrap()` and `.clone()` carry different categories.
Both matching rules (`unwrap\(\)` and `\.clone\(\)`) live in the
`best_practices` category, so the two findings carry the SAME category. -/
theorem C5_same_category :
    (analyze_file "a.rs" [⟨"a.rs", 7, ["+let z = a.clone().unwrap();"]⟩]).map
        (fun f => f.category) = ["best_practices", "best_practices"] := rfl

/-- C5 (amended): an added Rust line containing both `.unwrap()` and
`.clone()` produces exactly two findings, one per matching rule, with the
same file, line and category (`best_practices`) but different messages;
no deduplication happens. -/
theorem C5_two_findings :
    analyze_file "a.rs" [⟨"a.rs", 7, ["+let z = a.clone().unwrap();"]⟩]
      = [⟨"warning", "best_practices", "a.rs", 7,
          "Consider using proper error handling instead of unwrap()",
          "let z = a.clone().unwrap();"⟩,
         ⟨"warning", "best_practices", "a.rs", 7,
          "Avoid unnecessary clones, consider references",
          "let z = a.clone().unwrap();"⟩] := rfl

/-- C6: lines that do not begin with `+` (removed lines, context lines,
stray hunk-header lines in the content) never produce a finding, whatever
their content: a file whose hunks contain no added line yields no
findings. -/
theorem C6_only_added_lines (filename : String) (hunks : List Hunk)
    (h : ∀ hk ∈ hunks, ∀ l ∈ hk.content, pyStartsWith l "+" = false) :
    analyze_file filename hunks = [] := by
  induction hunks with
  | nil => rfl
  | cons hk hks ih =>
    have h1 : ∀ l ∈ hk.content, pyStartsWith l "+" = false := h hk (by simp)
    have h2 : ∀ x ∈ hks, ∀ l ∈ x.content, pyStartsWith l "+" = false :=
      fun x hx => h x (by simp [hx])
    simp only [analyze_file, flatMapL_cons] at ih ⊢
    rw [analyzeHunk_no_plus _ _ _ _ h1, ih h2]
    rfl

/-- C6 witness: a hunk holding a removed line and a context line that both
match catalog rules, plus a stray hunk-header line, yields no findings. -/
theorem C6_witness :
    analyze_file "a.rs" [⟨"a.rs", 1, ["-x.unwrap()", " y.clone()", "@@ -1,2 +3,4 @@"]⟩] = [] :=
  C6_only_added_lines "a.rs" _ (by decide)

/-! ## Totality analysis of `parse_diff` (claim C2) -/

/-- A line the `parse_diff` loop can process without raising: a file-header
line must split (on single spaces) into at least 3 fields, and a
hunk-header line must carry, after the first `@@`, a first comma-field
whose tail past its first character parses as a Python `int`. -/
def goodLine (l : String) : Bool :=
  (!pyStartsWith l "diff --git" || ((pySplit ' ' l)[2]?).isSome) &&
  (!pyStartsWith l "@@" ||
    (match (pySplitAA l)[1]? with
     | none => false
     | some seg => (pyInt? (pyDrop1 ((pySplit ',' seg).head?.getD ""))).isSome))

/-- Loop invariant of `parse_diff`: whenever `current_file` is set, it is a
key of the `files` dict (so `files[current_file]` cannot raise
`KeyError`). -/
def Inv (st : PState) : Prop :=
  ∀ c, st.current = some c → (dictGet st.files c).isSome = true

theorem inv_init : Inv ⟨[], none⟩ := by
  intro c hc
  cases hc

theorem step_total (st : PState) (l : String) (hInv : Inv st)
    (hg : goodLine l = true) :
    ∃ st2, step st l = .ok st2 ∧ Inv st2 := by
  rw [goodLine, Bool.and_eq_true] at hg
  obtain ⟨hg1, hg2⟩ := hg
  by_cases hd : pyStartsWith l "diff --git" = true
  · rw [hd] at hg1
    simp only [Bool.not_true, Bool.false_or] at hg1
    obtain ⟨tok, htok⟩ := Option.isSome_iff_exists.mp hg1
    refine ⟨⟨dictSet st.files ((pySplit '/' tok).getLastD "") [],
             some ((pySplit '/' tok).getLastD "")⟩, ?_, ?_⟩
    · simp [step, hd, htok]
    · intro c hc
      obtain rfl : (pySplit '/' tok).getLastD "" = c := Option.some.inj hc
      rw [dictGet_dictSet]
      simp
  · have hd0 : pyStartsWith l "diff --git" = false := Bool.eq_false_iff.mpr hd
    by_cases htr : pyTruthy st.current = true
    · cases hcur : st.current with
      | none => rw [hcur] at htr; exact absurd htr (by simp [pyTruthy])
      | some c =>
        have htr2 : pyTruthy (some c) = true := hcur ▸ htr
        obtain ⟨hs, hhs⟩ := Option.isSome_iff_exists.mp (hInv c hcur)
        by_cases hat : pyStartsWith l "@@" = true
        · rw [hat] at hg2
          simp only [Bool.not_true, Bool.false_or] at hg2
          cases hseg : (pySplitAA l)[1]? with
          | none => rw [hseg] at hg2; exact absurd hg2 (by simp)
          | some seg =>
            rw [hseg] at hg2
            obtain ⟨n, hn⟩ := Option.isSome_iff_exists.mp hg2
            refine ⟨⟨dictSet st.files c (hs ++ [⟨c, n, []⟩]), some c⟩, ?_, ?_⟩
            · simp [step, hd0, hcur, htr2, hat, hseg, hn, hhs]
            · intro c2 hc2
              obtain rfl : c = c2 := Option.some.inj hc2
              rw [dictGet_dictSet]
              simp
        · have hat0 : pyStartsWith l "@@" = false := Bool.eq_false_iff.mpr hat
          cases hlast : hs.getLast? with
          | none =>
            refine ⟨st, ?_, hInv⟩
            simp [step, hd0, hcur, htr2, hat0, hhs, hlast]
          | some hk =>
            refine ⟨⟨dictSet st.files c
                      (hs.dropLast ++ [⟨hk.file, hk.line_start, hk.content ++ [l]⟩]),
                    some c⟩, ?_, ?_⟩
            · simp [step, hd0, hcur, htr2, hat0, hhs, hlast]
            · intro c2 hc2
              obtain rfl : c = c2 := Option.some.inj hc2
              rw [dictGet_dictSet]
              simp
    · have htr0 : pyTruthy st.current = false := Bool.eq_false_iff.mpr htr
      refine ⟨st, ?_, hInv⟩
      simp [step, hd0, htr0]

theorem parseLines_total (ls : List String) :
    ∀ st, Inv st → (∀ l ∈ ls, goodLine l = true) →
      ∃ st2, parseLines st ls = .ok st2 ∧ Inv st2 := by
  induction ls with
  | nil => exact fun st hInv _ => ⟨st, rfl, hInv⟩
  | cons l ls ih =>
    intro st hInv hg
    obtain ⟨st1, hstep, hInv1⟩ := step_total st l hInv (hg l (by simp))
    obtain ⟨st2, hrest, hInv2⟩ := ih st1 hInv1 (fun x hx => hg x (by simp [hx]))
    refine ⟨st2, ?_, hInv2⟩
    rw [parseLines, hstep]
    exact hrest

/-- C2 counterexample: the claim says the core completes without raising on
every input, malformed hunk headers included.  On a diff whose hunk header
has a non-numeric range, `int(line.split('@@')[1].split(',')[0][1:])`
raises `ValueError` (there is no `try` around it), so the pipeline does
not return a Review Result. -/
theorem C2_valueerror_on_malformed_hunk :
    review "diff --git a/a.rs b/a.rs\n@@ x @@" = .error .valueError := rfl

/-- C2 (amended): the pipeline is total only on inputs whose lines are all
well-formed for the parser: every `diff --git` line splits into at least 3
space-separated fields, and every `@@` line carries a parsable integer in
the position the parser slices out.  Under that condition `review` always
returns a Review Result; outside it, a malformed file-header line raises
`IndexError` and a malformed hunk header raises `ValueError` instead of
being silently ignored. -/
theorem C2_amended (content : String)
    (h : ∀ l ∈ pySplit '\n' content, goodLine l = true) :
    ∃ r, review content = .ok r := by
  obtain ⟨st2, hp, _⟩ := parseLines_total (pySplit '\n' content) ⟨[], none⟩ inv_init h
  refine ⟨⟨"Code review completed with "
            ++ toString (flatMapL st2.files fun f => analyze_file f.1 f.2).length
            ++ " issues found",
          flatMapL st2.files fun f => analyze_file f.1 f.2,
          st2.files.length⟩, ?_⟩
  unfold review parse_diff
  rw [hp]

/-- C2 witness: a well-formed diff satisfies the line condition and the
pipeline completes on it. -/
theorem C2_witness :
    ∃ r, review "diff --git a/x.rs b/x.rs\n@@ -5,3 +10,4 @@\n+a.unwrap()" = .ok r :=
  C2_amended _ (by decide)

/-! ## Language classifier (claim C7) -/

/-- Modelled from the claim's words, for comparison with the code's
classifier: classify by the lowercased suffix after the LAST dot of the
identifier (any dot counts, wherever it sits), mapping a missing dot to
`generic`. -/
def detectLanguageByLastDot (filename : String) : String :=
  match lastDotSplit filename.toList with
  | none => "generic"
  | some p => (dictGet langMap (pyLower (String.mk ('.' :: p.2)))).getD "generic"

/-- The classifier's closed codomain. -/
def langNames : List String :=
  ["rust", "go", "python", "javascript", "typescript", "java", "generic"]

theorem dictGet_langMap_values (k v : String) (h : dictGet langMap k = some v) :
    v ∈ ["rust", "go", "python", "javascript", "typescript", "java"] := by
  simp only [langMap, dictGet] at h
  split at h
  · exact (Option.some.inj h) ▸ (by decide)
  · split at h
    · exact (Option.some.inj h) ▸ (by decide)
    · split at h
      · exact (Option.some.inj h) ▸ (by decide)
      · split at h
        · exact (Option.some.inj h) ▸ (by decide)
        · split at h
          · exact (Option.some.inj h) ▸ (by decide)
          · split at h
            · exact (Option.some.inj h) ▸ (by decide)
            · cases h

/-- C7 counterexample: the claim says classification goes solely by the
lowercased suffix after the last `.`; for the hidden-file name `.rs` that
rule gives `rust`, but `pathlib`'s `suffix` treats a name whose only dot is
its first character as extension-less, so the code returns `generic`. -/
theorem C7_hidden_file :
    detect_language ".rs" = "generic" ∧
    detectLanguageByLastDot ".rs" = "rust" ∧
    detect_language ".rs" ≠ detectLanguageByLastDot ".rs" := by
  refine ⟨rfl, rfl, by decide⟩

/-- C7 (amended): the classifier is a total pure function into
{rust, go, python, javascript, typescript, java, generic}; it classifies by
the lowercased `pathlib`-style suffix of the final path component — the
last-dot segment, except that a leading or trailing dot yields no suffix —
and maps unknown or missing suffixes to `generic`. -/
theorem C7_amended (filename : String) :
    detect_language filename ∈ langNames ∧
    detect_language "x.rs" = "rust" ∧
    detect_language "A.RS" = "rust" ∧
    detect_language "dir/x.RS" = "rust" ∧
    detect_language "a.tar.gz" = "generic" ∧
    detect_language ".rs" = "generic" ∧
    detect_language "a." = "generic" ∧
    detect_language "noext" = "generic" := by
  refine ⟨?_, rfl, rfl, rfl, rfl, rfl, rfl, rfl⟩
  unfold detect_language
  cases hget : dictGet langMap (pyLower (pathSuffix filename)) with
  | none => simp [langNames]
  | some v =>
    have hv := dictGet_langMap_values _ _ hget
    simp only [Option.getD_some, langNames]
    simp at hv
    rcases hv with h | h | h | h | h | h <;> simp [h]

/-! ## Empty-diff behaviour (claim C8) -/

theorem step_init_nonheader (l : String)
    (hl : pyStartsWith l "diff --git" = false) :
    step ⟨[], none⟩ l = .ok ⟨[], none⟩ := by
  simp [step, hl, pyTruthy]

theorem parseLines_init_nonheader (ls : List String)
    (h : ∀ l ∈ ls, pyStartsWith l "diff --git" = false) :
    parseLines ⟨[], none⟩ ls = .ok ⟨[], none⟩ := by
  induction ls with
  | nil => rfl
  | cons l ls ih =>
    rw [parseLines, step_init_nonheader l (h l (by simp))]
    exact ih (fun x hx => h x (by simp [hx]))

/-- C8: an input with no line starting with `diff --git` produces a Review
Result with `files_reviewed = 0` and no issues (and the corresponding
summary). -/
theorem C8_no_file_headers (content : String)
    (h : ∀ l ∈ pySplit '\n' content, pyStartsWith l "diff --git" = false) :
    review content = .ok ⟨"Code review completed with 0 issues found", [], 0⟩ := by
  unfold review parse_diff
  rw [parseLines_init_nonheader _ h]
  rfl

/-- C8 witness: an input holding hunk headers, added lines and context but
no file header reviews zero files and reports zero issues. -/
theorem C8_witness :
    review "@@ -1,2 +3,4 @@\n+x.unwrap()\ncontext line" =
      .ok ⟨"Code review completed with 0 issues found", [], 0⟩ :=
  C8_no_file_headers _ (by decide)

/-! ## Determinism (claim C9) -/

/-- C9: the pipeline is a pure, deterministic function of the diff text —
two independent runs (each on a fresh reviewer, whose `self.issues` starts
empty per `__init__`) on equal inputs return equal Review Results:
equal summaries, equal issue sequences, equal `files_reviewed`. -/
theorem C9_deterministic (d1 d2 : String) (h : d1 = d2) :
    review d1 = review d2 := by
  rw [h]

/-- C9 witness: two runs on the same concrete diff agree. -/
theorem C9_witness :
    review "diff --git a/x.rs b/x.rs\n@@ -1,1 +1,1 @@\n+a.unwrap()"
      = review "diff --git a/x.rs b/x.rs\n@@ -1,1 +1,1 @@\n+a.unwrap()" :=
  C9_deterministic _ _ rfl

/-! ## Re-keying by base name (claim C10) -/

theorem parseLines_append (xs ys : List String) :
    ∀ st, parseLines st (xs ++ ys)
      = match parseLines st xs with
        | .error e => .error e
        | .ok st2 => parseLines st2 ys := by
  induction xs with
  | nil => intro st; rfl
  | cons x xs ih =>
    intro st
    rw [List.cons_append, parseLines, parseLines]
    cases hstep : step st x with
    | error e => rfl
    | ok st1 => exact ih st1

theorem parseLines_singleton (st st2 : PState) (l : String)
    (h : step st l = .ok st2) :
    parseLines st [l] = .ok st2 := by
  rw [parseLines, h]
  rfl

theorem step_nonheader_keys (st st2 : PState) (l : String)
    (hl : pyStartsWith l "diff --git" = false)
    (h : step st l = .ok st2) :
    st2.files.map Prod.fst = st.files.map Prod.fst ∧ st2.current = st.current := by
  by_cases htr : pyTruthy st.current = true
  · cases hcur : st.current with
    | none => rw [hcur] at htr; exact absurd htr (by simp [pyTruthy])
    | some c =>
      have htr2 : pyTruthy (some c) = true := hcur ▸ htr
      cases hget : dictGet st.files c with
      | none =>
        by_cases hat : pyStartsWith l "@@" = true
        · cases hseg : (pySplitAA l)[1]? with
          | none =>
            have hx : step st l = .error .indexError := by
              simp [step, hl, hcur, htr2, hat, hseg]
            rw [hx] at h
            cases h
          | some seg =>
            cases hn : pyInt? (pyDrop1 ((pySplit ',' seg).head?.getD "")) with
            | none =>
              have hx : step st l = .error .valueError := by
                simp [step, hl, hcur, htr2, hat, hseg, hn]
              rw [hx] at h
              cases h
            | some n =>
              have hx : step st l = .error .keyError := by
                simp [step, hl, hcur, htr2, hat, hseg, hn, hget]
              rw [hx] at h
              cases h
        · have hat0 : pyStartsWith l "@@" = false := Bool.eq_false_iff.mpr hat
          have hx : step st l = .error .keyError := by
            simp [step, hl, hcur, htr2, hat0, hget]
          rw [hx] at h
          cases h
      | some hs =>
        by_cases hat : pyStartsWith l "@@" = true
        · cases hseg : (pySplitAA l)[1]? with
          | none =>
            have hx : step st l = .error .indexError := by
              simp [step, hl, hcur, htr2, hat, hseg]
            rw [hx] at h
            cases h
          | some seg =>
            cases hn : pyInt? (pyDrop1 ((pySplit ',' seg).head?.getD "")) with
            | none =>
              have hx : step st l = .error .valueError := by
                simp [step, hl, hcur, htr2, hat, hseg, hn]
              rw [hx] at h
              cases h
            | some n =>
              have hx : step st l
                  = .ok ⟨dictSet st.files c (hs ++ [⟨c, n, []⟩]), some c⟩ := by
                simp [step, hl, hcur, htr2, hat, hseg, hn, hget]
              rw [hx] at h
              obtain rfl := (Except.ok.inj h).symm
              refine ⟨dictSet_keys _ _ _ (by simp [hget]), hcur.symm ▸ rfl⟩
        · have hat0 : pyStartsWith l "@@" = false := Bool.eq_false_iff.mpr hat
          cases hlast : hs.getLast? with
          | none =>
            have hx : step st l = .ok st := by
              simp [step, hl, hcur, htr2, hat0, hget, hlast]
            rw [hx] at h
            obtain rfl : st = st2 := Except.ok.inj h
            exact ⟨rfl, hcur⟩
          | some hk =>
            have hx : step st l
                = .ok ⟨dictSet st.files c
                         (hs.dropLast ++
                           [⟨hk.file, hk.line_start, hk.content ++ [l]⟩]),
                       some c⟩ := by
              simp [step, hl, hcur, htr2, hat0, hget, hlast]
            rw [hx] at h
            obtain rfl := (Except.ok.inj h).symm
            refine ⟨dictSet_keys _ _ _ (by simp [hget]), hcur.symm ▸ rfl⟩
  · have htr0 : pyTruthy st.current = false := Bool.eq_false_iff.mpr htr
    have hx : step st l = .ok st := by
      simp [step, hl, htr0]
    rw [hx] at h
    obtain rfl : st = st2 := Except.ok.inj h
    exact ⟨rfl, rfl⟩

theorem parseLines_nonheader_keys (ls : List String) :
    ∀ st st2, (∀ l ∈ ls, pyStartsWith l "diff --git" = false) →
      parseLines st ls = .ok st2 →
      st2.files.map Prod.fst = st.files.map Prod.fst ∧ st2.current = st.current := by
  induction ls with
  | nil =>
    intro st st2 _ hp
    obtain rfl : st = st2 := Except.ok.inj hp
    exact ⟨rfl, rfl⟩
  | cons l ls ih =>
    intro st st2 hno hp
    rw [parseLines] at hp
    cases hstep : step st l with
    | error e => rw [hstep] at hp; cases hp
    | ok st1 =>
      rw [hstep] at hp
      obtain ⟨hk1, hc1⟩ := step_nonheader_keys st st1 l (hno l (by simp)) hstep
      obtain ⟨hk2, hc2⟩ := ih st1 st2 (fun x hx => hno x (by simp [hx])) hp
      exact ⟨hk2.trans hk1, hc2.trans hc1⟩

/-- C10: two `diff --git` headers whose paths share the base name `f` key
the same dict entry: the second header re-assigns `files["f"] = []`,
discarding every hunk parsed under the first occurrence, and the `files`
dict ends with the single key `f` (one reviewed file), whatever well-formed
material sat between the two headers. -/
theorem C10_basename_rekey (mid : List String) (st : PState)
    (h1 : parseLines ⟨[], none⟩ ("diff --git a/d1/f b/d1/f" :: mid) = .ok st)
    (h2 : ∀ l ∈ mid, pyStartsWith l "diff --git" = false) :
    parseLines ⟨[], none⟩
        (("diff --git a/d1/f b/d1/f" :: mid) ++ ["diff --git a/d2/f b/d2/f"])
      = .ok ⟨[("f", [])], some "f"⟩ := by
  have hs1 : step ⟨[], none⟩ "diff --git a/d1/f b/d1/f"
      = .ok ⟨[("f", [])], some "f"⟩ := rfl
  have hmid : parseLines ⟨[("f", [])], some "f"⟩ mid = .ok st := h1
  have hkeys : st.files.map Prod.fst = ["f"] := by
    have hk := parseLines_nonheader_keys mid ⟨[("f", [])], some "f"⟩ st h2 hmid
    simpa using hk.1
  have hone : dictSet st.files "f" [] = [("f", [])] := by
    cases hfiles : st.files with
    | nil => rw [hfiles] at hkeys; cases hkeys
    | cons p rest =>
      obtain ⟨k2, v2⟩ := p
      rw [hfiles] at hkeys
      simp only [List.map_cons, List.cons.injEq] at hkeys
      obtain ⟨rfl, hrest⟩ := hkeys
      have : rest = [] := List.map_eq_nil_iff.mp hrest
      subst this
      simp [dictSet]
  have hstep2 : step st "diff --git a/d2/f b/d2/f"
      = .ok ⟨dictSet st.files "f" [], some "f"⟩ := rfl
  rw [parseLines_append, h1]
  show parseLines st ["diff --git a/d2/f b/d2/f"] = .ok ⟨[("f", [])], some "f"⟩
  rw [parseLines_singleton _ _ _ hstep2, hone]

/-- C10 witness: a concrete diff whose first `f` entry collects one hunk
with one content line, all discarded when the second `f` header arrives. -/
theorem C10_witness :
    parseLines ⟨[], none⟩
        (("diff --git a/d1/f b/d1/f" :: ["@@ -1,2 +3,4 @@", "+x.unwrap()"]) ++
          ["diff --git a/d2/f b/d2/f"])
      = .ok ⟨[("f", [])], some "f"⟩ :=
  C10_basename_rekey ["@@ -1,2 +3,4 @@", "+x.unwrap()"]
    ⟨[("f", [⟨"f", -1, ["+x.unwrap()"]⟩])], some "f"⟩ (by rfl) (by decide)

end CodexReview
